import Mathlib

/-!
# Verification of the HTML→Markdown conversion core of `mcp-server-fetch-typescript`

Shallow embedding of `src/index.ts`: the DOM is an ordered tree of element
and text nodes; the repository's Turndown rules (`table`, `dl`), the
NodeHtmlMarkdown translator configs (`dt`, `dd`, `Head`), and the tool
dispatcher are translated directly from the source.  The third-party
rendering engines (Turndown, NodeHtmlMarkdown) are not part of this
repository; where a claim needs them they are modelled from the design
spec (§2 data flow, §4.1 Node Filter, §4.4 override hooks, §4.5 strategies)
and marked `Modelled from the spec:` in their doc comments.
-/

namespace FetchTS

/-- A DOM node: an element with a (lowercase) tag kind and ordered children,
or a text node.  HTML parsing normalizes element names to lowercase; the DOM
`tagName` accessor reports them in uppercase (see `tagName`). -/
inductive Node where
  | text : String → Node
  | elem : String → List Node → Node

/-- Uppercasing of a tag, character by character. -/
def upper (s : String) : String := ⟨s.data.map Char.toUpper⟩

/-- DOM `tagName`: uppercase form of the tag, empty for text nodes. -/
def tagName : Node → String
  | .text _ => ""
  | .elem t _ => upper t

mutual
/-- DOM `textContent`: concatenation of all descendant text, in document order. -/
def textContent : Node → String
  | .text s => s
  | .elem _ cs => textContentList cs

def textContentList : List Node → String
  | [] => ""
  | c :: cs => textContent c ++ textContentList cs
end

mutual
/-- All element descendants (pre-order, document order) of the nodes in the
list whose tag satisfies `p` — the semantics of `querySelectorAll` with a
tag-name selector list. -/
def qsaList (p : String → Bool) : List Node → List Node
  | [] => []
  | c :: cs => qsaNode p c ++ qsaList p cs

/-- Matching descendants-or-self of one node, in document order. -/
def qsaNode (p : String → Bool) : Node → List Node
  | .text _ => []
  | .elem t cs => (if p t then [Node.elem t cs] else []) ++ qsaList p cs
end

/-- `node.querySelectorAll(sel)`: matching strict descendants of `node`,
in document order. -/
def querySelectorAll (p : String → Bool) : Node → List Node
  | .text _ => []
  | .elem _ cs => qsaList p cs

/-- `node.querySelector(sel)`: the first matching strict descendant, if any. -/
def querySelector (p : String → Bool) (n : Node) : Option Node :=
  (querySelectorAll p n).head?

/-- `node.children`: the element children (text nodes are not in `children`). -/
def elementChildren : Node → List Node
  | .text _ => []
  | .elem _ cs => cs.filter (fun c => match c with | .elem _ _ => true | .text _ => false)

/-- JavaScript `String.prototype.trim` on the ASCII whitespace the embedding
models: drop leading and trailing blanks, tabs, newlines, carriage returns. -/
def isWS (c : Char) : Bool := c == ' ' || c == '\t' || c == '\n' || c == '\r'

/-- Trim as used by `cell.textContent?.trim() || ''` in the source (the
`|| ''` fallback is the identity here, since `textContent` is total and an
empty trimmed string maps to the empty string). -/
def jsTrim (s : String) : String :=
  ⟨((s.data.dropWhile isWS).reverse.dropWhile isWS).reverse⟩

/-- JavaScript `Array.prototype.join(sep)`. -/
def jsJoin (sep : String) : List String → String
  | [] => ""
  | [x] => x
  | x :: y :: xs => x ++ sep ++ jsJoin sep (y :: xs)

/-- Selector predicate for `tr`. -/
def isTr (t : String) : Bool := t == "tr"

/-- Selector predicate for `th, td`. -/
def isCellTag (t : String) : Bool := t == "th" || t == "td"

/-- Selector predicate for `title`. -/
def isTitle (t : String) : Bool := t == "title"

/-- The trimmed cell texts of a row, as the table rule computes them:
`Array.from(row.querySelectorAll('th, td')).map(cell => cell.textContent?.trim() || '')`. -/
def cellsOf (row : Node) : List String :=
  (querySelectorAll isCellTag row).map (fun c => jsTrim (textContent c))

/-- The rows of a table node: `Array.from(node.querySelectorAll('tr'))`. -/
def rowsOf (node : Node) : List Node := querySelectorAll isTr node

/-- The `table` rule's replacement function from
`turndownService.addRule('table', …)` in `src/index.ts`: no rows yields `''`;
otherwise a leading newline, header row from row 0's cells, a separator with
one `---` per header cell, the remaining rows, and a trailing newline. -/
def tableReplacement (node : Node) : String :=
  let rows := rowsOf node
  match rows with
  | [] => ""
  | headerRow :: rest =>
    let headerCells := cellsOf headerRow
    let separator := jsJoin "|" (headerCells.map (fun _ => "---"))
    let seed := "\n| " ++ jsJoin " | " headerCells ++ " |\n|" ++ separator ++ "|"
    let markdown := rest.foldl
      (fun acc row => acc ++ "\n| " ++ jsJoin " | " (cellsOf row) ++ " |") seed
    markdown ++ "\n"

/-- The `dl` rule's replacement function from
`turndownService.addRule('dl', …)` in `src/index.ts`: fold over
`Array.from(node.children)` carrying the mutable `currentDt`, starting from
`'\n\n'`, and append a final `'\n'`. -/
def dlReplacement (node : Node) : String :=
  let items := elementChildren node
  let folded := items.foldl
    (fun (acc : String × String) item =>
      let markdown := acc.1
      let currentDt := acc.2
      if tagName item == "DT" then
        let d := jsTrim (textContent item)
        (if d ≠ "" then markdown ++ "**" ++ d ++ ":**" else markdown, d)
      else if tagName item == "DD" then
        let ddContent := jsTrim (textContent item)
        (if ddContent ≠ "" then markdown ++ " " ++ ddContent ++ "\n" else markdown,
         currentDt)
      else
        (markdown, currentDt))
    ("\n\n", "")
  folded.1 ++ "\n"

/-- The `Head` translator's `postprocess` hook from `customTranslators` in
`src/index.ts`: `ctx.node.querySelector('title')`, returning its
`textContent || ''` when present and `''` otherwise. -/
def headPostprocess (node : Node) : String :=
  match querySelector isTitle node with
  | some titleNode => textContent titleNode
  | none => ""

/-! ## Strategy orchestration

The rendering engines themselves (Turndown, NodeHtmlMarkdown) are external
libraries, not code of this repository; the walks below are modelled from the
spec (§2 data flow, §4.1 Node Filter, §4.4 override hooks, §4.5 strategies),
with the repository's own rules and translator directives plugged in. -/

/-- The element kinds removed by the Turndown strategy, from the
`turndownService.remove(…)` calls in `getMarkdownStringFromHtmlByTD`:
always `script` and `style`, and additionally `header`, `footer`, `nav`
when `mainOnly` is set. -/
def tdRemoved (mainOnly : Bool) : List String :=
  ["script", "style"] ++ (if mainOnly then ["header", "footer", "nav"] else [])

/-- The element kinds ignored by the NodeHtmlMarkdown strategy: `script` and
`style` (the library's defaults, per the spec's Exclusion Set, §3), and
additionally `header`, `footer`, `nav` via the `ignore: true` translators
installed in `getMarkdownStringFromHtmlByNHM` when `mainOnly` is set. -/
def nhmIgnored (mainOnly : Bool) : List String :=
  ["script", "style"] ++ (if mainOnly then ["header", "footer", "nav"] else [])

mutual
/-- Modelled from the spec (§4.1 Node Filter): every node whose kind is in
the exclusion set, and all of its descendants, are absent from subsequent
processing.  `pruneKeep` maps one node to its filtered form — `[]` if its
kind is excluded, otherwise the node with filtered children. -/
def pruneKeep (ex : List String) : Node → List Node
  | .text s => [.text s]
  | .elem t cs => if ex.contains t then [] else [.elem t (pruneList ex cs)]

def pruneList (ex : List String) : List Node → List Node
  | [] => []
  | c :: cs => pruneKeep ex c ++ pruneList ex cs
end

mutual
/-- Modelled from the spec (§4.4 Generic Block Transcoder, §4.5 Strategy A):
the tree walk dispatches `table` and `dl` nodes to the repository's Turndown
rules and renders every other kind by the generic mapping, modelled here as
concatenation of the children's renderings (text nodes yield their text). -/
def walkTD : Node → String
  | .text s => s
  | .elem t cs =>
    if t == "table" then tableReplacement (.elem t cs)
    else if t == "dl" then dlReplacement (.elem t cs)
    else walkTDList cs

def walkTDList : List Node → String
  | [] => ""
  | c :: cs => walkTD c ++ walkTDList cs
end

/-- Strategy A (`getMarkdownStringFromHtmlByTD`'s conversion core): Node
Filter with the Turndown exclusion set, then the rule-dispatching walk
(spec §2 data flow: filter before structural conversion). -/
def stratTD (mainOnly : Bool) (doc : Node) : String :=
  walkTDList (pruneList (tdRemoved mainOnly) [doc])

/-- The `dt` translator's surrounding strings from `customTranslators` in
`src/index.ts` (`'**'` before, `':** '` after the content). -/
def dtOpen : String := "**"

/-- See `dtOpen`. -/
def dtClose : String := ":** "

/-- The `dd` translator's trailing string (`'\n'`) from `customTranslators`. -/
def ddClose : String := "\n"

/-- Modelled from the spec (§4.5 Strategy B): NodeHtmlMarkdown's built-in
table support, which is not reimplemented by the repository — a block with a
header line from row 0, a separator line of dash-only cells (one per header
cell), and one line per data row. -/
def nhmTable (node : Node) : String :=
  match rowsOf node with
  | [] => ""
  | headerRow :: rest =>
    let headerCells := cellsOf headerRow
    "\n| " ++ jsJoin " | " headerCells ++ " |\n|"
      ++ jsJoin "|" (headerCells.map (fun _ => "---")) ++ "|"
      ++ (rest.map (fun r => "\n| " ++ jsJoin " | " (cellsOf r) ++ " |")).foldl
          (fun a b => a ++ b) ""
      ++ "\n"

mutual
/-- Modelled from the spec (§4.4 override hooks, §4.5 Strategy B): the
directive-table walk.  The `head`, `dt`, `dd` directives are the repository's
`customTranslators`; an element's content is its whitespace-normalized text
(the spec's whitespace policy), and empty-text terms/definitions contribute
no text (spec §8); `table` goes to the engine's built-in table support;
every other kind renders by concatenating its children's renderings. -/
def walkNHM : Node → String
  | .text s => s
  | .elem t cs =>
    if t == "head" then headPostprocess (.elem t cs)
    else if t == "dt" then
      let c := jsTrim (textContentList cs)
      if c = "" then "" else dtOpen ++ c ++ dtClose
    else if t == "dd" then
      let c := jsTrim (textContentList cs)
      if c = "" then "" else c ++ ddClose
    else if t == "table" then nhmTable (.elem t cs)
    else walkNHMList cs

def walkNHMList : List Node → String
  | [] => ""
  | c :: cs => walkNHM c ++ walkNHMList cs
end

/-- Strategy B (`getMarkdownStringFromHtmlByNHM`'s conversion core): the
ignored kinds are absent from traversal (spec §4.4 (b): ignore means emit
nothing and skip descendants), then the directive-table walk. -/
def stratNHM (mainOnly : Bool) (doc : Node) : String :=
  walkNHMList (pruneList (nhmIgnored mainOnly) [doc])

/-! ## The tool dispatcher (`CallToolRequestSchema` handler) -/

/-- JavaScript `String(x)` applied to `request.params.arguments?.url`:
an absent value (`undefined`) coerces to the string `"undefined"`; a present
string is unchanged. -/
def jsString : Option String → String
  | none => "undefined"
  | some s => s

/-- The optional-chain `request.params.arguments?.url`: `undefined` when the
`arguments` object is absent, else its (optional) `url` field. -/
def optUrl : Option (Option String) → Option String
  | none => none
  | some u => u

/-- A CallTool request: the tool name, and the optional `arguments` object
with its optional `url` field. -/
structure ToolRequest where
  name : String
  arguments : Option (Option String)

/-- The effect the dispatcher commits to: which helper is invoked, with which
`url` and (for the markdown helpers) which `mainOnly` flag.  An omitted
`mainOnly` argument takes the helper's declared default `false`. -/
inductive ToolAction where
  | rawText (url : String)
  | renderedHtml (url : String)
  | markdownNHM (url : String) (mainOnly : Bool)
  | markdownTD (url : String) (mainOnly : Bool)
deriving DecidableEq

/-- The `CallToolRequestSchema` handler from `src/index.ts`:
`const url = String(request.params.arguments?.url); if (!url) throw …;`
then the `switch` on the tool name.  `get_markdown` calls
`getMarkdownStringFromHtmlByNHM(url)` (so `mainOnly` defaults to `false`);
`get_markdown_summary` calls `getMarkdownStringFromHtmlByTD(url, true)`. -/
def handleToolCall (req : ToolRequest) : Except String ToolAction :=
  let url := jsString (optUrl req.arguments)
  if url = "" then Except.error "url is required !"
  else
    match req.name with
    | "get_raw_text" => Except.ok (ToolAction.rawText url)
    | "get_rendered_html" => Except.ok (ToolAction.renderedHtml url)
    | "get_markdown" => Except.ok (ToolAction.markdownNHM url false)
    | "get_markdown_summary" => Except.ok (ToolAction.markdownTD url true)
    | _ => Except.error "Unknown tool"

/-! ## Sequential request processing (spec §5) -/

/-- Modelled from the spec (§5): the surrounding shell feeds conversion
requests to the core one after another; each call runs
`getMarkdownStringFromHtmlByTD`'s conversion, which builds its converter
configuration afresh from its own arguments. -/
def batchTD : List (Node × Bool) → List String
  | [] => []
  | (h, m) :: rs => stratTD m h :: batchTD rs

/-- Modelled from the spec (§5): as `batchTD`, for
`getMarkdownStringFromHtmlByNHM`'s conversion. -/
def batchNHM : List (Node × Bool) → List String
  | [] => []
  | (h, m) :: rs => stratNHM m h :: batchNHM rs

/-! ## Characterization vocabulary (for stating the spec's properties) -/

/-- Concatenation of a list of strings. -/
def strConcat : List String → String
  | [] => ""
  | s :: ss => s ++ strConcat ss

/-- A Markdown table content line `| c1 | c2 | … |`. -/
def mkRowLine (cells : List String) : String := "| " ++ jsJoin " | " cells ++ " |"

/-- A Markdown table separator line `|---|---|…|` with `w` dash groups. -/
def mkSepLine (w : Nat) : String := "|" ++ jsJoin "|" (List.replicate w "---") ++ "|"

/-- A string free of newline characters — a single "line". -/
def noNL (s : String) : Prop := '\n' ∉ s.data

instance (s : String) : Decidable (noNL s) := by unfold noNL; infer_instance

/-- Split a character list at every occurrence of `c` (the separator is
dropped; empty segments are kept, as in `String.splitOn`). -/
def splitChar (c : Char) : List Char → List (List Char)
  | [] => [[]]
  | a :: as =>
    let r := splitChar c as
    if a == c then [] :: r
    else
      match r with
      | [] => [[a]]
      | g :: gs => (a :: g) :: gs

/-- The newline-separated lines of a string. -/
def linesOf (s : String) : List String := (splitChar '\n' s.data).map (fun l => ⟨l⟩)

/-- Whether `pat` is an initial segment of `l`. -/
def isPreList : List Char → List Char → Bool
  | [], _ => true
  | _ :: _, [] => false
  | a :: as, b :: bs => a == b && isPreList as bs

/-- Whether `pat` occurs as a contiguous segment of `l`. -/
def hasSubList (pat : List Char) : List Char → Bool
  | [] => isPreList pat []
  | a :: rest => isPreList pat (a :: rest) || hasSubList pat rest

/-- Whether `pat` occurs as a contiguous substring of `s`. -/
def strContains (s pat : String) : Bool := hasSubList pat.data s.data

/-- The per-child contribution of the `dl` rule, read off from the two
branches of its fold: a non-empty trimmed `DT` yields `**…:**`, a non-empty
trimmed `DD` yields `' …\n'`, everything else yields nothing. -/
def dlItem (item : Node) : String :=
  if tagName item == "DT" then
    let d := jsTrim (textContent item)
    if d ≠ "" then "**" ++ d ++ ":**" else ""
  else if tagName item == "DD" then
    let d := jsTrim (textContent item)
    if d ≠ "" then " " ++ d ++ "\n" else ""
  else ""

/-- The lines of the table block: header line from row 0's cells, separator
with exactly one dash group per header cell, then one line per later row
from that row's own cells. -/
def tableLines (node : Node) : List String :=
  match rowsOf node with
  | [] => []
  | headerRow :: rest =>
    mkRowLine (cellsOf headerRow)
      :: mkSepLine (cellsOf headerRow).length
      :: rest.map (fun r => mkRowLine (cellsOf r))

mutual
/-- Replace the children of every element whose kind is in `tags` by `[]`,
keeping everything else.  Used to state content-insensitivity: if the output
on a document equals the output on its blanked form, the inner content of
those kinds cannot appear in (or otherwise influence) the output. -/
def blankNode (tags : List String) : Node → Node
  | .text s => .text s
  | .elem t cs => .elem t (if t ∈ tags then [] else blankList tags cs)

def blankList (tags : List String) : List Node → List Node
  | [] => []
  | c :: cs => blankNode tags c :: blankList tags cs
end

mutual
/-- No element of the subtree (the node itself included) has a kind in `tags`. -/
def avoidsNode (tags : List String) : Node → Bool
  | .text _ => true
  | .elem t cs => (!(decide (t ∈ tags))) && avoidsList tags cs

def avoidsList (tags : List String) : List Node → Bool
  | [] => true
  | c :: cs => avoidsNode tags c && avoidsList tags cs
end

/-! ## Concrete scenario inputs (spec §8) -/

/-- Scenario 1's table: header row `A`, `B`; data row `1`, `2`. -/
def scenarioTable : Node :=
  .elem "table"
    [.elem "tr" [.elem "th" [.text "A"], .elem "th" [.text "B"]],
     .elem "tr" [.elem "td" [.text "1"], .elem "td" [.text "2"]]]

/-- Scenario 2's definition list: one `dt`/`dd` pair. -/
def scenarioDl : Node := .elem "dl" [.elem "dt" [.text "Term"], .elem "dd" [.text "Def"]]

/-- Scenario 5's definition list: an empty `dt` followed by a `dd`. -/
def scenarioEmptyDt : Node := .elem "dl" [.elem "dt" [], .elem "dd" [.text "Def"]]

/-- A table whose single header cell's trimmed text contains an embedded
newline. -/
def newlineCellTable : Node :=
  .elem "table" [.elem "tr" [.elem "td" [.text "a\nb"]]]

/-- A head element with a `meta`, a `title` and a `style` child. -/
def scenarioHead : Node :=
  .elem "head"
    [.elem "meta" [], .elem "title" [.text "Page"], .elem "style" [.text "b \x7b c: d \x7d"]]

/-! ## Helper lemmas: strings -/

theorem mk_data (s : String) : String.mk s.data = s := rfl

theorem strConcat_append (l₁ l₂ : List String) :
    strConcat (l₁ ++ l₂) = strConcat l₁ ++ strConcat l₂ := by
  induction l₁ with
  | nil => simp [strConcat, String.empty_append]
  | cons a l ih => simp [strConcat, ih, String.append_assoc]

theorem foldl_append_eq (l : List String) (s : String) :
    l.foldl (fun a b => a ++ b) s = s ++ strConcat l := by
  induction l generalizing s with
  | nil => simp [strConcat, String.append_empty]
  | cons a l ih => simp [strConcat, ih, String.append_assoc]

theorem jsJoin_cons (sep x : String) (ys : List String) :
    jsJoin sep (x :: ys) = x ++ strConcat (ys.map (fun y => sep ++ y)) := by
  induction ys generalizing x with
  | nil => simp [jsJoin, strConcat, String.append_empty]
  | cons y ys ih => simp [jsJoin, strConcat, ih, String.append_assoc]

/-! ## Helper lemmas: the table block's closed form -/

theorem dataLit1 : ("\n| " : String).data = '\n' :: '|' :: ' ' :: [] := rfl

theorem dataLit2 : (" |\n|" : String).data = ' ' :: '|' :: '\n' :: '|' :: [] := rfl

theorem dataLit3 : ("\n" : String).data = ['\n'] := rfl

theorem dataLit4 : ("| " : String).data = ['|', ' '] := rfl

theorem dataLit5 : (" |" : String).data = [' ', '|'] := rfl

theorem dataLit6 : ("|" : String).data = ['|'] := rfl

theorem table_fold_eq (rest : List Node) (s : String) :
    rest.foldl (fun acc row => acc ++ "\n| " ++ jsJoin " | " (cellsOf row) ++ " |") s
      = s ++ strConcat (rest.map (fun r => "\n" ++ mkRowLine (cellsOf r))) := by
  induction rest generalizing s with
  | nil => simp [strConcat, String.append_empty]
  | cons r rs ih =>
    have hlit : ∀ z : String, z ++ "\n| " ++ jsJoin " | " (cellsOf r) ++ " |"
        = z ++ ("\n" ++ mkRowLine (cellsOf r)) := by
      intro z
      apply String.ext
      simp [String.data_append, mkRowLine, dataLit1, dataLit3, dataLit4, dataLit5]
    simp only [List.foldl_cons, List.map_cons, strConcat, hlit, ih]
    simp [String.append_assoc]

theorem map_const_replicate {α : Type} (l : List α) :
    l.map (fun _ => ("---" : String)) = List.replicate l.length "---" := by
  induction l with
  | nil => rfl
  | cons a l ih => simp [List.replicate, ih]

theorem tableReplacement_closed (node : Node) (headerRow : Node) (rest : List Node)
    (hrows : rowsOf node = headerRow :: rest) :
    tableReplacement node = "\n" ++ jsJoin "\n" (tableLines node) ++ "\n" := by
  have hlines : tableLines node
      = mkRowLine (cellsOf headerRow)
        :: mkSepLine (cellsOf headerRow).length
        :: rest.map (fun r => mkRowLine (cellsOf r)) := by
    simp [tableLines, hrows]
  have hsrc : tableReplacement node
      = "\n| " ++ jsJoin " | " (cellsOf headerRow) ++ " |\n|"
          ++ jsJoin "|" ((cellsOf headerRow).map (fun _ => "---")) ++ "|"
          ++ strConcat (rest.map (fun r => "\n" ++ mkRowLine (cellsOf r))) ++ "\n" := by
    show (match rowsOf node with
      | [] => ""
      | headerRow :: rest =>
        let headerCells := cellsOf headerRow
        let separator := jsJoin "|" (headerCells.map (fun _ => "---"))
        let seed := "\n| " ++ jsJoin " | " headerCells ++ " |\n|" ++ separator ++ "|"
        let markdown := rest.foldl
          (fun acc row => acc ++ "\n| " ++ jsJoin " | " (cellsOf row) ++ " |") seed
        markdown ++ "\n") = _
    rw [hrows]
    simp only [table_fold_eq]
  rw [hsrc, hlines, jsJoin_cons]
  apply String.ext
  simp [String.data_append, mkRowLine, mkSepLine, map_const_replicate, List.map_map,
    strConcat, strConcat_append, dataLit1, dataLit2, dataLit3, dataLit4, dataLit5,
    dataLit6, Function.comp_def]

/-! ## Helper lemmas: the dl block's closed form -/

theorem dl_fold_eq (items : List Node) : ∀ md cur : String,
    (items.foldl
      (fun (acc : String × String) item =>
        let markdown := acc.1
        let currentDt := acc.2
        if tagName item == "DT" then
          let d := jsTrim (textContent item)
          (if d ≠ "" then markdown ++ "**" ++ d ++ ":**" else markdown, d)
        else if tagName item == "DD" then
          let ddContent := jsTrim (textContent item)
          (if ddContent ≠ "" then markdown ++ " " ++ ddContent ++ "\n" else markdown,
           currentDt)
        else
          (markdown, currentDt))
      (md, cur)).1 = md ++ strConcat (items.map dlItem) := by
  induction items with
  | nil => intro md cur; simp [strConcat, String.append_empty]
  | cons it its ih =>
    intro md cur
    by_cases h1 : (tagName it == "DT") = true
    · by_cases h2 : jsTrim (textContent it) = ""
      · simp only [List.foldl_cons, h1, if_true, h2, ne_eq, not_true_eq_false, if_false,
          ite_false, List.map_cons, strConcat]
        rw [ih]
        simp [dlItem, h1, h2, String.empty_append, String.append_assoc]
      · simp only [List.foldl_cons, h1, if_true, ne_eq, h2, not_false_eq_true, ite_true,
          List.map_cons, strConcat]
        rw [ih]
        simp [dlItem, h1, h2, String.append_assoc]
    · by_cases h3 : (tagName it == "DD") = true
      · by_cases h2 : jsTrim (textContent it) = ""
        · simp only [List.foldl_cons, h1, h3, Bool.not_eq_true, if_true, if_false, h2,
            ne_eq, not_true_eq_false, ite_false, List.map_cons, strConcat]
          rw [ih]
          simp [dlItem, h1, h3, h2, String.empty_append, String.append_assoc]
        · simp only [List.foldl_cons, h1, h3, Bool.not_eq_true, if_true, if_false, ne_eq,
            h2, not_false_eq_true, ite_true, List.map_cons, strConcat]
          rw [ih]
          simp [dlItem, h1, h3, h2, String.append_assoc]
      · simp only [List.foldl_cons, h1, h3, Bool.not_eq_true, if_false, List.map_cons,
          strConcat]
        rw [ih]
        simp [dlItem, h1, h3, String.empty_append]

theorem dlReplacement_closed (node : Node) :
    dlReplacement node
      = "\n\n" ++ strConcat ((elementChildren node).map dlItem) ++ "\n" := by
  unfold dlReplacement
  simp only [dl_fold_eq]

/-! ## Helper lemmas: newline-free strings and line splitting -/

theorem noNL_append {a b : String} (ha : noNL a) (hb : noNL b) : noNL (a ++ b) := by
  simp only [noNL, String.data_append, List.mem_append] at *
  rintro (h | h) <;> [exact ha h; exact hb h]

theorem noNL_jsJoin {sep : String} {l : List String} (hsep : noNL sep)
    (h : ∀ x ∈ l, noNL x) : noNL (jsJoin sep l) := by
  induction l with
  | nil => intro hc; simp [jsJoin] at hc
  | cons x xs ih =>
    cases xs with
    | nil => exact h x (by simp)
    | cons y ys =>
      have h1 : noNL x := h x (by simp)
      have h2 : noNL (jsJoin sep (y :: ys)) := ih (fun z hz => h z (by simp at hz ⊢; tauto))
      exact noNL_append (noNL_append h1 hsep) h2

theorem noNL_mkRowLine {cells : List String} (h : ∀ c ∈ cells, noNL c) :
    noNL (mkRowLine cells) := by
  have h1 : noNL "| " := by decide
  have h2 : noNL " |" := by decide
  have h3 : noNL " | " := by decide
  exact noNL_append (noNL_append h1 (noNL_jsJoin h3 h)) h2

theorem noNL_mkSepLine (w : Nat) : noNL (mkSepLine w) := by
  have h1 : noNL "|" := by decide
  refine noNL_append (noNL_append h1 (noNL_jsJoin h1 ?_)) h1
  intro x hx
  rw [List.eq_of_mem_replicate hx]
  decide

theorem splitChar_append_no (c : Char) (a : List Char) (l g : List Char)
    (gs : List (List Char)) (h : ∀ x ∈ a, ¬ x = c) (hs : splitChar c l = g :: gs) :
    splitChar c (a ++ l) = (a ++ g) :: gs := by
  induction a with
  | nil => simpa using hs
  | cons x xs ih =>
    have hx : ¬ x = c := h x (by simp)
    have hxs : ∀ y ∈ xs, ¬ y = c := fun y hy => h y (by simp [hy])
    have hrec := ih hxs
    simp [splitChar, hrec, beq_iff_eq, hx]

theorem splitChar_sep (c : Char) (l : List Char) :
    splitChar c (c :: l) = [] :: splitChar c l := by
  simp [splitChar]

theorem splitChar_join (L : List String) (h : ∀ x ∈ L, noNL x) : L ≠ [] →
    splitChar '\n' ((jsJoin "\n" L).data ++ ['\n']) = L.map String.data ++ [[]] := by
  induction L with
  | nil => intro hL; exact absurd rfl hL
  | cons x xs ih =>
    intro _
    have hx : ∀ ch ∈ x.data, ¬ ch = '\n' := by
      intro ch hch hc; exact h x (by simp) (hc ▸ hch)
    cases xs with
    | nil =>
      have hsingle : splitChar '\n' ['\n'] = [] :: [[]] := by decide
      simpa using splitChar_append_no '\n' x.data ['\n'] [] [[]] hx hsingle
    | cons y ys =>
      have hys : ∀ z ∈ y :: ys, noNL z := fun z hz => h z (by simp at hz ⊢; tauto)
      have hrec := ih hys (by simp)
      have hdata : (jsJoin "\n" (x :: y :: ys)).data ++ ['\n']
          = x.data ++ ('\n' :: ((jsJoin "\n" (y :: ys)).data ++ ['\n'])) := by
        show (x ++ "\n" ++ jsJoin "\n" (y :: ys)).data ++ ['\n'] = _
        simp [String.data_append, dataLit3]
      rw [hdata,
        splitChar_append_no '\n' x.data _ [] ((y :: ys).map String.data ++ [[]]) hx
          (by rw [splitChar_sep, hrec]),
        List.append_nil]
      simp

theorem linesOf_block (L : List String) (h : ∀ x ∈ L, noNL x) (hL : L ≠ []) :
    linesOf ("\n" ++ jsJoin "\n" L ++ "\n") = "" :: L ++ [""] := by
  unfold linesOf
  have hdata : ("\n" ++ jsJoin "\n" L ++ "\n").data
      = '\n' :: ((jsJoin "\n" L).data ++ ['\n']) := by
    simp [String.data_append, dataLit3]
  rw [hdata, splitChar_sep, splitChar_join L h hL]
  simp [Function.comp_def, mk_data]

/-! ## Helper lemmas: substring occurrence -/

theorem isPreList_self_append (p rest : List Char) : isPreList p (p ++ rest) = true := by
  induction p with
  | nil => rfl
  | cons a as ih => simp [isPreList, ih]

theorem hasSubList_self (p b : List Char) : hasSubList p (p ++ b) = true := by
  cases hpb : p ++ b with
  | nil =>
    have hp : p = [] := (List.append_eq_nil.mp hpb).1
    subst hp; simp [hasSubList, isPreList]
  | cons x xs =>
    have h1 : isPreList p (x :: xs) = true := by
      rw [← hpb]; exact isPreList_self_append p b
    simp [hasSubList, h1]

theorem hasSubList_cons (p : List Char) (c : Char) (l : List Char)
    (h : hasSubList p l = true) : hasSubList p (c :: l) = true := by
  rw [hasSubList, h]
  simp

theorem hasSubList_append_left (p a l : List Char) (h : hasSubList p l = true) :
    hasSubList p (a ++ l) = true := by
  induction a with
  | nil => simpa using h
  | cons x xs ih => exact hasSubList_cons p x (xs ++ l) ih

theorem strContains_of_split (x pat y : String) : strContains (x ++ pat ++ y) pat = true := by
  unfold strContains
  have hdata : (x ++ pat ++ y).data = x.data ++ (pat.data ++ y.data) := by
    simp [String.data_append]
  rw [hdata]
  exact hasSubList_append_left pat.data x.data _ (hasSubList_self pat.data y.data)

/-! ## Helper lemmas: walks, pruning, blanking -/

theorem walkTDList_append (l₁ l₂ : List Node) :
    walkTDList (l₁ ++ l₂) = walkTDList l₁ ++ walkTDList l₂ := by
  induction l₁ with
  | nil => simp [walkTDList, String.empty_append]
  | cons c cs ih => simp [walkTDList, ih, String.append_assoc]

theorem walkNHMList_append (l₁ l₂ : List Node) :
    walkNHMList (l₁ ++ l₂) = walkNHMList l₁ ++ walkNHMList l₂ := by
  induction l₁ with
  | nil => simp [walkNHMList, String.empty_append]
  | cons c cs ih => simp [walkNHMList, ih, String.append_assoc]

theorem pruneList_append (ex : List String) (l₁ l₂ : List Node) :
    pruneList ex (l₁ ++ l₂) = pruneList ex l₁ ++ pruneList ex l₂ := by
  induction l₁ with
  | nil => simp [pruneList]
  | cons c cs ih =>
    cases c with
    | text s => simp [pruneList, ih]
    | elem t cs' => by_cases h : t ∈ ex <;> simp [pruneList, h, ih]

theorem pruneList_blankList (ex tags : List String) (hsub : ∀ t ∈ tags, t ∈ ex) :
    ∀ l : List Node, pruneList ex (blankList tags l) = pruneList ex l
  | [] => rfl
  | .text s :: cs => by
    simp [blankList, blankNode, pruneList, pruneKeep,
      pruneList_blankList ex tags hsub cs]
  | .elem t cs' :: cs => by
    by_cases ht : t ∈ tags
    · have htex : t ∈ ex := hsub t ht
      simp [blankList, blankNode, pruneList, pruneKeep, ht, htex,
        pruneList_blankList ex tags hsub cs]
    · by_cases htex : t ∈ ex
      · simp [blankList, blankNode, pruneList, pruneKeep, ht, htex,
          pruneList_blankList ex tags hsub cs]
      · simp [blankList, blankNode, pruneList, pruneKeep, ht, htex,
          pruneList_blankList ex tags hsub cs', pruneList_blankList ex tags hsub cs]

theorem pruneList_avoids (ex : List String) :
    ∀ l : List Node, avoidsList ex l = true → pruneList ex l = l
  | [], _ => by simp [pruneList]
  | .text s :: cs, h => by
    have hcs : avoidsList ex cs = true := by
      simpa [avoidsList, avoidsNode] using h
    simp [pruneList, pruneKeep, pruneList_avoids ex cs hcs]
  | .elem t cs' :: cs, h => by
    have h' := h
    simp only [avoidsList, avoidsNode, Bool.and_eq_true, Bool.not_eq_true',
      decide_eq_false_iff_not] at h'
    simp [pruneList, pruneKeep, h'.1.1, pruneList_avoids ex cs' h'.1.2,
      pruneList_avoids ex cs h'.2]

/-! ## Helper lemmas: batch processing -/

theorem batchTD_get (rs : List (Node × Bool)) (i : Nat) :
    (batchTD rs)[i]? = (rs[i]?).map (fun p => stratTD p.2 p.1) := by
  induction rs generalizing i with
  | nil => simp [batchTD]
  | cons r rs ih => cases r; cases i <;> simp [batchTD, ih]

theorem batchNHM_get (rs : List (Node × Bool)) (i : Nat) :
    (batchNHM rs)[i]? = (rs[i]?).map (fun p => stratNHM p.2 p.1) := by
  induction rs generalizing i with
  | nil => simp [batchNHM]
  | cons r rs ih => cases r; cases i <;> simp [batchNHM, ih]

/-! ## Claim theorems -/

/-- C5: a table node with zero `tr` rows is not an error — the table rule
returns the empty string, so the block contributes nothing to the output
(and, the embedding being total, conversion cannot throw on it). -/
theorem empty_table_yields_empty (node : Node) (h : rowsOf node = []) :
    tableReplacement node = "" := by
  unfold tableReplacement
  simp [h]

/-- Witness for C5 at the spec's Scenario 4 input `<table></table>`. -/
theorem empty_table_yields_empty_witness :
    rowsOf (Node.elem "table" []) = [] ∧ tableReplacement (Node.elem "table" []) = "" :=
  ⟨rfl, empty_table_yields_empty (Node.elem "table" []) rfl⟩

/-- C2: the `dl` rule scans only the direct element children of the node, in
order, and its output is exactly the leading `"\n\n"`, then each child's
contribution in order — `**term:**` for a non-empty trimmed `dt` (no trailing
space or newline), a space + trimmed text + newline for a non-empty trimmed
`dd`, nothing for anything else — then the trailing `"\n"`.  (The mutable
`currentDt` the source fold carries never influences the output.) -/
theorem dl_rule_direct_children (node : Node) :
    dlReplacement node = "\n\n" ++ strConcat ((elementChildren node).map dlItem) ++ "\n"
    ∧ (∀ cs : List Node, dlItem (Node.elem "dt" cs)
        = if jsTrim (textContent (Node.elem "dt" cs)) ≠ ""
          then "**" ++ jsTrim (textContent (Node.elem "dt" cs)) ++ ":**" else "")
    ∧ (∀ cs : List Node, dlItem (Node.elem "dd" cs)
        = if jsTrim (textContent (Node.elem "dd" cs)) ≠ ""
          then " " ++ jsTrim (textContent (Node.elem "dd" cs)) ++ "\n" else "")
    ∧ (∀ item : Node, tagName item ≠ "DT" → tagName item ≠ "DD" → dlItem item = "") := by
  refine ⟨dlReplacement_closed node, ?_, ?_, ?_⟩
  · intro cs
    have h1 : (tagName (Node.elem "dt" cs) == "DT") = true := by
      simp only [tagName]; decide
    simp [dlItem, h1]
  · intro cs
    have h1 : (tagName (Node.elem "dd" cs) == "DT") = false := by
      simp only [tagName]; decide
    have h2 : (tagName (Node.elem "dd" cs) == "DD") = true := by
      simp only [tagName]; decide
    simp [dlItem, h1, h2]
  · intro item h1 h2
    simp [dlItem, h1, h2]

/-- Witness for C2's per-kind clauses, at a `dt`, a `dd` and a `span` child. -/
theorem dl_rule_direct_children_witness :
    dlReplacement scenarioDl = "\n\n" ++ strConcat ((elementChildren scenarioDl).map dlItem) ++ "\n"
    ∧ dlItem (Node.elem "dt" [Node.text "Term"]) = "**Term:**"
    ∧ dlItem (Node.elem "dd" [Node.text "Def"]) = " Def\n"
    ∧ dlItem (Node.elem "span" [Node.text "x"]) = "" := by
  have h := dl_rule_direct_children scenarioDl
  refine ⟨h.1, ?_, ?_, ?_⟩
  · rw [(dl_rule_direct_children scenarioDl).2.1 [Node.text "Term"]]
    decide
  · rw [(dl_rule_direct_children scenarioDl).2.2.1 [Node.text "Def"]]
    decide
  · exact (dl_rule_direct_children scenarioDl).2.2.2 (Node.elem "span" [Node.text "x"])
      (by decide) (by decide)

/-- C6: for `<dl><dt></dt><dd>Def</dd></dl>` the Turndown `dl` rule emits only
the `' Def'` line inside its framing (`"\n\n Def\n\n"`), with no `**:**`
marker; and neither strategy's whole-document output contains `**:**`. -/
theorem empty_dt_scenario :
    dlReplacement scenarioEmptyDt = "\n\n Def\n\n"
    ∧ strContains (dlReplacement scenarioEmptyDt) "**:**" = false
    ∧ strContains (stratTD false (Node.elem "body" [scenarioEmptyDt])) "**:**" = false
    ∧ strContains (stratNHM false (Node.elem "body" [scenarioEmptyDt])) "**:**" = false := by
  have h1 : dlReplacement scenarioEmptyDt = "\n\n Def\n\n" := by decide
  have h2 : stratTD false (Node.elem "body" [scenarioEmptyDt]) = "\n\n Def\n\n" := by decide
  have h3 : stratNHM false (Node.elem "body" [scenarioEmptyDt]) = "Def\n" := by decide
  exact ⟨h1, by rw [h1]; decide, by rw [h2]; decide, by rw [h3]; decide⟩

/-- C7 (code bug): a tool call that supplies no `url` argument is NOT
rejected.  `String(request.params.arguments?.url)` coerces the absent value
to the truthy string `"undefined"`, so the `if (!url) throw` guard passes and
the dispatcher proceeds to fetch the literal URL `"undefined"` — both when
the `arguments` object is absent and when it lacks a `url` field. -/
theorem missing_url_not_rejected :
    handleToolCall ⟨"get_markdown", none⟩
        = Except.ok (ToolAction.markdownNHM "undefined" false)
    ∧ handleToolCall ⟨"get_markdown", some none⟩
        = Except.ok (ToolAction.markdownNHM "undefined" false)
    ∧ handleToolCall ⟨"get_markdown_summary", some none⟩
        = Except.ok (ToolAction.markdownTD "undefined" true) := by
  refine ⟨rfl, rfl, rfl⟩

/-- C8: the `Head` translator's post-processing hook renders only the text of
the head's first `title` descendant, discarding all other head content, and
contributes the empty string when the head has no `title`. -/
theorem head_title_only (node : Node) :
    (querySelectorAll isTitle node = [] → headPostprocess node = "")
    ∧ ∀ (t : Node) (rest : List Node),
        querySelectorAll isTitle node = t :: rest → headPostprocess node = textContent t := by
  constructor
  · intro h
    simp [headPostprocess, querySelector, h]
  · intro t rest h
    simp [headPostprocess, querySelector, h]

/-- Witness for C8 at a head with `meta`, `title` and `style` children. -/
theorem head_title_only_witness : headPostprocess scenarioHead = "Page" := by
  have h := (head_title_only scenarioHead).2 (Node.elem "title" [Node.text "Page"]) [] rfl
  rw [h]
  decide

/-- C9: conversion is a pure, deterministic function of the request — in a
sequence of conversion requests, the i-th output depends only on the i-th
request `(tree, mainOnly)`, for both strategies; no other request in the
batch can influence it. -/
theorem conversion_noninterference (rs₁ rs₂ : List (Node × Bool)) (i : Nat)
    (h : rs₁[i]? = rs₂[i]?) :
    (batchTD rs₁)[i]? = (batchTD rs₂)[i]?
    ∧ (batchNHM rs₁)[i]? = (batchNHM rs₂)[i]? := by
  constructor <;> simp [batchTD_get, batchNHM_get, h]

/-- Witness for C9: changing the rest of the batch leaves request 0's output
untouched. -/
theorem conversion_noninterference_witness :
    (batchTD [(scenarioDl, false)])[0]?
      = (batchTD [(scenarioDl, false), (scenarioTable, true)])[0]?
    ∧ (batchNHM [(scenarioDl, false)])[0]?
      = (batchNHM [(scenarioDl, false), (scenarioTable, true)])[0]? :=
  conversion_noninterference [(scenarioDl, false)]
    [(scenarioDl, false), (scenarioTable, true)] 0 rfl

/-- C10: the dispatcher hardwires the strategies — `get_markdown` always
invokes the NodeHtmlMarkdown helper with `mainOnly` left at its default
`false`, `get_markdown_summary` always invokes the Turndown helper with
`mainOnly = true`, and no tool call whatsoever can reach the Turndown helper
with `mainOnly = false` or the NodeHtmlMarkdown helper with `mainOnly = true`. -/
theorem dispatcher_hardwired :
    (∀ args : Option (Option String), jsString (optUrl args) ≠ "" →
      handleToolCall ⟨"get_markdown", args⟩
          = Except.ok (ToolAction.markdownNHM (jsString (optUrl args)) false)
      ∧ handleToolCall ⟨"get_markdown_summary", args⟩
          = Except.ok (ToolAction.markdownTD (jsString (optUrl args)) true))
    ∧ ∀ (req : ToolRequest) (u : String),
        handleToolCall req ≠ Except.ok (ToolAction.markdownTD u false)
        ∧ handleToolCall req ≠ Except.ok (ToolAction.markdownNHM u true) := by
  constructor
  · intro args h
    constructor <;> simp [handleToolCall, h]
  · intro req u
    unfold handleToolCall
    by_cases h : jsString (optUrl req.arguments) = ""
    · simp [h]
    · simp only [h, if_false]
      constructor <;> · split <;> simp

/-- Witness for C10 at a concrete URL. -/
theorem dispatcher_hardwired_witness :
    handleToolCall ⟨"get_markdown", some (some "https://example.com")⟩
        = Except.ok (ToolAction.markdownNHM "https://example.com" false)
    ∧ handleToolCall ⟨"get_markdown_summary", some (some "https://example.com")⟩
        = Except.ok (ToolAction.markdownTD "https://example.com" true) :=
  dispatcher_hardwired.1 (some (some "https://example.com")) (by decide)

/-! ## Helper lemmas: strategy rendering of a body's children -/

theorem stratTD_body (m : Bool) (cs : List Node) :
    stratTD m (Node.elem "body" cs) = walkTDList (pruneList (tdRemoved m) cs) := by
  have hb : "body" ∉ tdRemoved m := by cases m <;> decide
  have h1 : (("body" : String) == "table") = false := by decide
  have h2 : (("body" : String) == "dl") = false := by decide
  unfold stratTD
  simp [pruneList, pruneKeep, hb, walkTDList, walkTD, h1, h2, String.append_empty]

theorem stratNHM_body (m : Bool) (cs : List Node) :
    stratNHM m (Node.elem "body" cs) = walkNHMList (pruneList (nhmIgnored m) cs) := by
  have hb : "body" ∉ nhmIgnored m := by cases m <;> decide
  have h1 : (("body" : String) == "head") = false := by decide
  have h2 : (("body" : String) == "dt") = false := by decide
  have h3 : (("body" : String) == "dd") = false := by decide
  have h4 : (("body" : String) == "table") = false := by decide
  unfold stratNHM
  simp [pruneList, pruneKeep, hb, walkNHMList, walkNHM, h1, h2, h3, h4,
    String.append_empty]

theorem stratTD_text_presence (m : Bool) (t : String) (pre post : List Node) (s : String)
    (h1 : t ∉ tdRemoved m)
    (h2 : (t == "table") = false) (h3 : (t == "dl") = false) :
    stratTD m (Node.elem "body" (pre ++ Node.elem t [Node.text s] :: post))
      = walkTDList (pruneList (tdRemoved m) pre)
        ++ s ++ walkTDList (pruneList (tdRemoved m) post) := by
  rw [stratTD_body, pruneList_append]
  rw [walkTDList_append]
  have hmid : pruneList (tdRemoved m) (Node.elem t [Node.text s] :: post)
      = Node.elem t [Node.text s] :: pruneList (tdRemoved m) post := by
    simp [pruneList, pruneKeep, h1]
  rw [hmid]
  have hwalk : walkTD (Node.elem t [Node.text s]) = s := by
    simp [walkTD, h2, h3, walkTDList, String.append_empty]
  simp [walkTDList, hwalk, String.append_assoc]

theorem stratNHM_text_presence (m : Bool) (t : String) (pre post : List Node) (s : String)
    (h1 : t ∉ nhmIgnored m)
    (h2 : (t == "head") = false) (h3 : (t == "dt") = false)
    (h4 : (t == "dd") = false) (h5 : (t == "table") = false) :
    stratNHM m (Node.elem "body" (pre ++ Node.elem t [Node.text s] :: post))
      = walkNHMList (pruneList (nhmIgnored m) pre)
        ++ s ++ walkNHMList (pruneList (nhmIgnored m) post) := by
  rw [stratNHM_body, pruneList_append]
  rw [walkNHMList_append]
  have hmid : pruneList (nhmIgnored m) (Node.elem t [Node.text s] :: post)
      = Node.elem t [Node.text s] :: pruneList (nhmIgnored m) post := by
    simp [pruneList, pruneKeep, h1]
  rw [hmid]
  have hwalk : walkNHM (Node.elem t [Node.text s]) = s := by
    simp [walkNHM, h2, h3, h4, h5, walkNHMList, String.append_empty]
  simp [walkNHMList, hwalk, String.append_assoc]

/-- C4: for every document and both strategies, the inner content of
`script`/`style` elements can never influence the markdown output (blanking
all their content changes nothing), for either value of `mainOnly`; with
`mainOnly = true` the same holds for `header`/`footer`/`nav` content; and
with `mainOnly = false` the inner text of a `header`/`footer`/`nav` element
does appear in the output. -/
theorem excluded_kinds_filtering :
    (∀ (m : Bool) (doc : Node),
      stratTD m doc = stratTD m (blankNode ["script", "style"] doc)
      ∧ stratNHM m doc = stratNHM m (blankNode ["script", "style"] doc))
    ∧ (∀ doc : Node,
      stratTD true doc = stratTD true (blankNode ["header", "footer", "nav"] doc)
      ∧ stratNHM true doc = stratNHM true (blankNode ["header", "footer", "nav"] doc))
    ∧ (∀ t : String, t ∈ ["header", "footer", "nav"] →
      ∀ (pre post : List Node) (s : String),
      (∃ a b, stratTD false (Node.elem "body" (pre ++ Node.elem t [Node.text s] :: post))
          = a ++ s ++ b)
      ∧ (∃ a b, stratNHM false (Node.elem "body" (pre ++ Node.elem t [Node.text s] :: post))
          = a ++ s ++ b)) := by
  refine ⟨?_, ?_, ?_⟩
  · intro m doc
    have hsub : ∀ t ∈ ["script", "style"], t ∈ tdRemoved m := by
      intro t ht
      cases m <;> simp [tdRemoved] at * <;> tauto
    have hsub' : ∀ t ∈ ["script", "style"], t ∈ nhmIgnored m := by
      intro t ht
      cases m <;> simp [nhmIgnored] at * <;> tauto
    have hblank : [blankNode ["script", "style"] doc]
        = blankList ["script", "style"] [doc] := by simp [blankList]
    constructor
    · unfold stratTD
      rw [hblank, pruneList_blankList _ _ hsub]
    · unfold stratNHM
      rw [hblank, pruneList_blankList _ _ hsub']
  · intro doc
    have hsub : ∀ t ∈ ["header", "footer", "nav"], t ∈ tdRemoved true := by decide
    have hsub' : ∀ t ∈ ["header", "footer", "nav"], t ∈ nhmIgnored true := by decide
    have hblank : [blankNode ["header", "footer", "nav"] doc]
        = blankList ["header", "footer", "nav"] [doc] := by simp [blankList]
    constructor
    · unfold stratTD
      rw [hblank, pruneList_blankList _ _ hsub]
    · unfold stratNHM
      rw [hblank, pruneList_blankList _ _ hsub']
  · intro t ht pre post s
    have ht' : t = "header" ∨ t = "footer" ∨ t = "nav" := by simpa using ht
    rcases ht' with rfl | rfl | rfl <;>
      exact ⟨⟨_, _, stratTD_text_presence false _ pre post s (by decide) (by decide)
          (by decide)⟩,
        ⟨_, _, stratNHM_text_presence false _ pre post s (by decide) (by decide)
          (by decide) (by decide) (by decide)⟩⟩

/-- Witness for C4 at the spec's Scenario 3 (`<nav>Menu</nav><p>Body</p>`)
and a script-bearing document. -/
theorem excluded_kinds_filtering_witness :
    (stratTD false (Node.elem "body"
        [Node.elem "script" [Node.text "evil()"], Node.elem "p" [Node.text "Body"]])
      = stratTD false (blankNode ["script", "style"] (Node.elem "body"
        [Node.elem "script" [Node.text "evil()"], Node.elem "p" [Node.text "Body"]])))
    ∧ (∃ a b, stratTD false (Node.elem "body"
        ([] ++ Node.elem "nav" [Node.text "Menu"] :: [Node.elem "p" [Node.text "Body"]]))
        = a ++ "Menu" ++ b) := by
  constructor
  · exact (excluded_kinds_filtering.1 false _).1
  · exact ((excluded_kinds_filtering.2.2 "nav" (by decide) []
      [Node.elem "p" [Node.text "Body"]] "Menu").1)

/-! ## Helper lemmas: locating a child block inside a rendered body -/

theorem dataLitStar2 : ("**" : String).data = ['*', '*'] := rfl

theorem dataLitColonStar : (":** " : String).data = [':', '*', '*', ' '] := rfl

theorem dataLitColon2 : (":**" : String).data = [':', '*', '*'] := rfl

theorem dataLitSpace : (" " : String).data = [' '] := rfl

theorem dataLitNN : ("\n\n" : String).data = ['\n', '\n'] := rfl

theorem strContains_of_middle (A C pat D B : String) :
    strContains (A ++ (C ++ pat ++ D) ++ B) pat = true := by
  have h : A ++ (C ++ pat ++ D) ++ B = (A ++ C) ++ pat ++ (D ++ B) := by
    simp [String.append_assoc]
  rw [h]
  exact strContains_of_split _ _ _

theorem stratTD_mid (m : Bool) (t : String) (mcs mcs' : List Node)
    (pre post : List Node) (h1 : t ∉ tdRemoved m)
    (hp : pruneList (tdRemoved m) mcs = mcs') :
    stratTD m (Node.elem "body" (pre ++ Node.elem t mcs :: post))
      = walkTDList (pruneList (tdRemoved m) pre) ++ walkTD (Node.elem t mcs')
        ++ walkTDList (pruneList (tdRemoved m) post) := by
  rw [stratTD_body, pruneList_append, walkTDList_append]
  have hmid : pruneList (tdRemoved m) (Node.elem t mcs :: post)
      = Node.elem t mcs' :: pruneList (tdRemoved m) post := by
    simp [pruneList, pruneKeep, h1, hp]
  rw [hmid]
  simp [walkTDList, String.append_assoc]

theorem stratNHM_mid (m : Bool) (t : String) (mcs mcs' : List Node)
    (pre post : List Node) (h1 : t ∉ nhmIgnored m)
    (hp : pruneList (nhmIgnored m) mcs = mcs') :
    stratNHM m (Node.elem "body" (pre ++ Node.elem t mcs :: post))
      = walkNHMList (pruneList (nhmIgnored m) pre) ++ walkNHM (Node.elem t mcs')
        ++ walkNHMList (pruneList (nhmIgnored m) post) := by
  rw [stratNHM_body, pruneList_append, walkNHMList_append]
  have hmid : pruneList (nhmIgnored m) (Node.elem t mcs :: post)
      = Node.elem t mcs' :: pruneList (nhmIgnored m) post := by
    simp [pruneList, pruneKeep, h1, hp]
  rw [hmid]
  simp [walkNHMList, String.append_assoc]

theorem dlReplacement_marker (ds1 ds2 : List Node) (s : String) (hs : jsTrim s ≠ "") :
    ∃ C D, dlReplacement (Node.elem "dl" (ds1 ++ Node.elem "dt" [Node.text s] :: ds2))
      = C ++ ("**" ++ jsTrim s ++ ":**") ++ D := by
  rw [dlReplacement_closed]
  have htext : textContent (Node.elem "dt" [Node.text s]) = s := by
    simp [textContent, textContentList, String.append_empty]
  have htag : (tagName (Node.elem "dt" [Node.text s]) == "DT") = true := by
    simp only [tagName]; decide
  have hitem : dlItem (Node.elem "dt" [Node.text s]) = "**" ++ jsTrim s ++ ":**" := by
    simp [dlItem, htag, htext, hs]
  have hchildren : elementChildren (Node.elem "dl" (ds1 ++ Node.elem "dt" [Node.text s] :: ds2))
      = (ds1.filter (fun c => match c with | .elem _ _ => true | .text _ => false))
        ++ Node.elem "dt" [Node.text s]
          :: (ds2.filter (fun c => match c with | .elem _ _ => true | .text _ => false)) := by
    simp [elementChildren, List.filter_append]
  rw [hchildren]
  refine ⟨"\n\n" ++ strConcat ((ds1.filter
      (fun c => match c with | .elem _ _ => true | .text _ => false)).map dlItem),
    strConcat ((ds2.filter
      (fun c => match c with | .elem _ _ => true | .text _ => false)).map dlItem) ++ "\n", ?_⟩
  rw [List.map_append, List.map_cons, strConcat_append]
  simp [strConcat, hitem, String.append_assoc]

theorem nhmTable_closed (node : Node) (headerRow : Node) (rest : List Node)
    (hrows : rowsOf node = headerRow :: rest) :
    nhmTable node = "\n" ++ jsJoin "\n" (tableLines node) ++ "\n" := by
  have hlines : tableLines node
      = mkRowLine (cellsOf headerRow)
        :: mkSepLine (cellsOf headerRow).length
        :: rest.map (fun r => mkRowLine (cellsOf r)) := by
    simp [tableLines, hrows]
  have hsrc : nhmTable node
      = "\n| " ++ jsJoin " | " (cellsOf headerRow) ++ " |\n|"
          ++ jsJoin "|" ((cellsOf headerRow).map (fun _ => "---")) ++ "|"
          ++ strConcat (rest.map (fun r => "\n| " ++ jsJoin " | " (cellsOf r) ++ " |"))
          ++ "\n" := by
    show (match rowsOf node with
      | [] => ""
      | headerRow :: rest =>
        let headerCells := cellsOf headerRow
        "\n| " ++ jsJoin " | " headerCells ++ " |\n|"
          ++ jsJoin "|" (headerCells.map (fun _ => "---")) ++ "|"
          ++ (rest.map (fun r => "\n| " ++ jsJoin " | " (cellsOf r) ++ " |")).foldl
              (fun a b => a ++ b) ""
          ++ "\n") = _
    rw [hrows]
    simp only [foldl_append_eq, String.empty_append]
  rw [hsrc, hlines, jsJoin_cons]
  have hmap : rest.map (fun r => "\n| " ++ jsJoin " | " (cellsOf r) ++ " |")
      = rest.map (fun r => "\n" ++ ("| " ++ jsJoin " | " (cellsOf r) ++ " |")) := by
    refine List.map_congr_left (fun r _ => ?_)
    apply String.ext
    simp [String.data_append, dataLit1, dataLit3, dataLit4, dataLit5]
  rw [hmap]
  apply String.ext
  simp [String.data_append, mkRowLine, mkSepLine, map_const_replicate, List.map_map,
    strConcat, strConcat_append, dataLit1, dataLit2, dataLit3, dataLit4, dataLit5,
    dataLit6, Function.comp_def]

/-- C1 counterexample: the claim's "the block contains exactly n+2 lines" is
false when a cell's trimmed text contains an embedded newline.  Here the
table has one `tr` (so n = 0 data rows) and the claim predicts a block of
leading newline + 2 lines + trailing newline, i.e. exactly
`(rowsOf t).length + 3 = 4` newline-separated segments — but the single
header cell's trimmed text `"a\nb"` keeps its inner newline, so the block
`"\n| a\nb |\n|---|\n"` splits into 5 segments
(`""`, `"| a"`, `"b |"`, `"|---|"`, `""`). -/
theorem table_line_count_cex :
    rowsOf newlineCellTable = [Node.elem "tr" [Node.elem "td" [Node.text "a\nb"]]]
    ∧ linesOf (tableReplacement newlineCellTable) = ["", "| a", "b |", "|---|", ""]
    ∧ (linesOf (tableReplacement newlineCellTable)).length
        ≠ (rowsOf newlineCellTable).length + 3 := by
  refine ⟨rfl, ?_, ?_⟩
  · have h : tableReplacement newlineCellTable = "\n| a\nb |\n|---|\n" := by decide
    rw [h]; decide
  · have h : tableReplacement newlineCellTable = "\n| a\nb |\n|---|\n" := by decide
    rw [h]; decide

/-- C1 (amended): for a table with rows `headerRow :: rest`, **provided no
cell's trimmed text contains a newline character**, the table rule emits a
leading newline, the header line `| c1 | c2 | … |` from row 0's trimmed
`th`/`td` texts, a separator `|---|…|` with exactly one `---` group per
header cell (never re-measuring later rows), one line per subsequent row
from that row's own trimmed cells, and a trailing newline — so the block's
newline-split segments are exactly `""`, the `rest.length + 2` lines, `""`. -/
theorem table_rule_block_structure (node headerRow : Node) (rest : List Node)
    (hrows : rowsOf node = headerRow :: rest)
    (hnl : ∀ r ∈ rowsOf node, ∀ c ∈ cellsOf r, noNL c) :
    tableReplacement node = "\n" ++ jsJoin "\n" (tableLines node) ++ "\n"
    ∧ tableLines node
        = mkRowLine (cellsOf headerRow)
          :: mkSepLine (cellsOf headerRow).length
          :: rest.map (fun r => mkRowLine (cellsOf r))
    ∧ linesOf (tableReplacement node) = "" :: tableLines node ++ [""]
    ∧ (tableLines node).length = rest.length + 2 := by
  have h1 := tableReplacement_closed node headerRow rest hrows
  have hlines : tableLines node
      = mkRowLine (cellsOf headerRow)
        :: mkSepLine (cellsOf headerRow).length
        :: rest.map (fun r => mkRowLine (cellsOf r)) := by
    simp [tableLines, hrows]
  have hnlLines : ∀ l ∈ tableLines node, noNL l := by
    rw [hlines]
    intro l hl
    simp only [List.mem_cons, List.mem_map] at hl
    rcases hl with rfl | rfl | ⟨r, hr, rfl⟩
    · exact noNL_mkRowLine
        (fun c hc => hnl headerRow (by rw [hrows]; exact List.mem_cons_self _ _) c hc)
    · exact noNL_mkSepLine _
    · exact noNL_mkRowLine
        (fun c hc => hnl r (by rw [hrows]; exact List.mem_cons_of_mem _ hr) c hc)
  have hne : tableLines node ≠ [] := by rw [hlines]; simp
  refine ⟨h1, hlines, ?_, by rw [hlines]; simp⟩
  rw [h1]
  exact linesOf_block (tableLines node) hnlLines hne

/-- Witness for C1's amended theorem at the spec's Scenario 1 table. -/
theorem table_rule_block_structure_witness :
    linesOf (tableReplacement scenarioTable)
      = ["", "| A | B |", "|---|---|", "| 1 | 2 |", ""] := by
  have h := table_rule_block_structure scenarioTable
      (Node.elem "tr" [Node.elem "th" [Node.text "A"], Node.elem "th" [Node.text "B"]])
      [Node.elem "tr" [Node.elem "td" [Node.text "1"], Node.elem "td" [Node.text "2"]]]
      rfl (by decide)
  rw [h.2.2.1, h.2.1]
  decide

/-- C3: both strategies meet the shared contract.  For any document whose
body holds (among arbitrary siblings) a definition list with a `dt` of
non-empty trimmed text `s`, both strategies' outputs contain the marker
`**s:**`; and for any table (free of excluded kinds) with at least one row,
both strategies' outputs contain a block made of a leading newline, a header
line from row 0, a separator line of dash-only cells (one per header cell),
one line per data row, and a trailing newline. -/
theorem strategies_shared_contract :
    (∀ (m : Bool) (pre post ds1 ds2 : List Node) (s : String), jsTrim s ≠ "" →
      strContains (stratTD m (Node.elem "body"
          (pre ++ Node.elem "dl" (ds1 ++ Node.elem "dt" [Node.text s] :: ds2) :: post)))
        ("**" ++ jsTrim s ++ ":**") = true
      ∧ strContains (stratNHM m (Node.elem "body"
          (pre ++ Node.elem "dl" (ds1 ++ Node.elem "dt" [Node.text s] :: ds2) :: post)))
        ("**" ++ jsTrim s ++ ":**") = true)
    ∧ (∀ (m : Bool) (pre post tcs : List Node) (headerRow : Node) (rest : List Node),
      avoidsList (tdRemoved m) tcs = true →
      rowsOf (Node.elem "table" tcs) = headerRow :: rest →
      (∃ a b, stratTD m (Node.elem "body" (pre ++ Node.elem "table" tcs :: post))
          = a ++ ("\n" ++ jsJoin "\n" (tableLines (Node.elem "table" tcs)) ++ "\n") ++ b)
      ∧ (∃ a b, stratNHM m (Node.elem "body" (pre ++ Node.elem "table" tcs :: post))
          = a ++ ("\n" ++ jsJoin "\n" (tableLines (Node.elem "table" tcs)) ++ "\n") ++ b)
      ∧ tableLines (Node.elem "table" tcs)
          = mkRowLine (cellsOf headerRow)
            :: mkSepLine (cellsOf headerRow).length
            :: rest.map (fun r => mkRowLine (cellsOf r))) := by
  have hnhm_td : nhmIgnored = tdRemoved := rfl
  constructor
  · intro m pre post ds1 ds2 s hs
    have hdl : "dl" ∉ tdRemoved m := by cases m <;> decide
    have hdt : "dt" ∉ tdRemoved m := by cases m <;> decide
    have hp : pruneList (tdRemoved m) (ds1 ++ Node.elem "dt" [Node.text s] :: ds2)
        = pruneList (tdRemoved m) ds1
          ++ Node.elem "dt" [Node.text s] :: pruneList (tdRemoved m) ds2 := by
      rw [pruneList_append]
      simp [pruneList, pruneKeep, hdt]
    constructor
    · have hmid := stratTD_mid m "dl" _ _ pre post hdl hp
      have hwalk : walkTD (Node.elem "dl"
          (pruneList (tdRemoved m) ds1
            ++ Node.elem "dt" [Node.text s] :: pruneList (tdRemoved m) ds2))
          = dlReplacement (Node.elem "dl"
          (pruneList (tdRemoved m) ds1
            ++ Node.elem "dt" [Node.text s] :: pruneList (tdRemoved m) ds2)) := by
        have e1 : (("dl" : String) == "table") = false := by decide
        have e2 : (("dl" : String) == "dl") = true := by decide
        simp [walkTD, e1, e2]
      obtain ⟨C, D, hCD⟩ := dlReplacement_marker
        (pruneList (tdRemoved m) ds1) (pruneList (tdRemoved m) ds2) s hs
      rw [hmid, hwalk, hCD]
      exact strContains_of_middle _ _ _ _ _
    · have hdl' : "dl" ∉ nhmIgnored m := by rw [hnhm_td]; exact hdl
      have hp' : pruneList (nhmIgnored m) (ds1 ++ Node.elem "dt" [Node.text s] :: ds2)
          = pruneList (nhmIgnored m) ds1
            ++ Node.elem "dt" [Node.text s] :: pruneList (nhmIgnored m) ds2 := by
        rw [hnhm_td]; exact hp
      have hmid := stratNHM_mid m "dl" _ _ pre post hdl' hp'
      have hwalk : walkNHM (Node.elem "dl"
          (pruneList (nhmIgnored m) ds1
            ++ Node.elem "dt" [Node.text s] :: pruneList (nhmIgnored m) ds2))
          = walkNHMList (pruneList (nhmIgnored m) ds1)
            ++ (walkNHM (Node.elem "dt" [Node.text s])
              ++ walkNHMList (pruneList (nhmIgnored m) ds2)) := by
        have e1 : (("dl" : String) == "head") = false := by decide
        have e2 : (("dl" : String) == "dt") = false := by decide
        have e3 : (("dl" : String) == "dd") = false := by decide
        have e4 : (("dl" : String) == "table") = false := by decide
        simp [walkNHM, e1, e2, e3, e4, walkNHMList_append, walkNHMList]
      have hdtwalk : walkNHM (Node.elem "dt" [Node.text s])
          = "**" ++ jsTrim s ++ ":** " := by
        have e1 : (("dt" : String) == "head") = false := by decide
        have e2 : (("dt" : String) == "dt") = true := by decide
        have htext : textContentList [Node.text s] = s := by
          simp [textContentList, textContent, String.append_empty]
        simp [walkNHM, e1, e2, htext, hs, dtOpen, dtClose]
      have heq : stratNHM m (Node.elem "body"
          (pre ++ Node.elem "dl" (ds1 ++ Node.elem "dt" [Node.text s] :: ds2) :: post))
          = walkNHMList (pruneList (nhmIgnored m) pre)
            ++ (walkNHMList (pruneList (nhmIgnored m) ds1)
              ++ ("**" ++ jsTrim s ++ ":**")
              ++ (" " ++ (walkNHMList (pruneList (nhmIgnored m) ds2))))
            ++ walkNHMList (pruneList (nhmIgnored m) post) := by
        rw [hmid, hwalk, hdtwalk]
        apply String.ext
        simp [String.data_append, dataLitStar2, dataLitColonStar, dataLitColon2,
          dataLitSpace, List.append_assoc]
      rw [heq]
      exact strContains_of_middle _ _ _ _ _
  · intro m pre post tcs headerRow rest htav hrows
    have htn : "table" ∉ tdRemoved m := by cases m <;> decide
    have hp : pruneList (tdRemoved m) tcs = tcs := pruneList_avoids _ tcs htav
    refine ⟨?_, ?_, by simp [tableLines, hrows]⟩
    · have hmid := stratTD_mid m "table" tcs tcs pre post htn hp
      have hwalk : walkTD (Node.elem "table" tcs)
          = tableReplacement (Node.elem "table" tcs) := by
        have e1 : (("table" : String) == "table") = true := by decide
        simp [walkTD, e1]
      refine ⟨walkTDList (pruneList (tdRemoved m) pre),
        walkTDList (pruneList (tdRemoved m) post), ?_⟩
      rw [hmid, hwalk, tableReplacement_closed _ headerRow rest hrows]
    · have htn' : "table" ∉ nhmIgnored m := by rw [hnhm_td]; exact htn
      have hp' : pruneList (nhmIgnored m) tcs = tcs := by rw [hnhm_td]; exact hp
      have hmid := stratNHM_mid m "table" tcs tcs pre post htn' hp'
      have hwalk : walkNHM (Node.elem "table" tcs) = nhmTable (Node.elem "table" tcs) := by
        have e1 : (("table" : String) == "head") = false := by decide
        have e2 : (("table" : String) == "dt") = false := by decide
        have e3 : (("table" : String) == "dd") = false := by decide
        have e4 : (("table" : String) == "table") = true := by decide
        simp [walkNHM, e1, e2, e3, e4]
      refine ⟨walkNHMList (pruneList (nhmIgnored m) pre),
        walkNHMList (pruneList (nhmIgnored m) post), ?_⟩
      rw [hmid, hwalk, nhmTable_closed _ headerRow rest hrows]

/-- Witness for C3 at the spec's Scenario 2 definition list and Scenario 1
table, placed in a document body. -/
theorem strategies_shared_contract_witness :
    (strContains (stratTD false (Node.elem "body"
        ([] ++ Node.elem "dl" ([] ++ Node.elem "dt" [Node.text "Term"] :: []) :: [])))
      ("**" ++ jsTrim "Term" ++ ":**") = true)
    ∧ (∃ a b, stratTD true (Node.elem "body" ([] ++ Node.elem "table"
          [Node.elem "tr" [Node.elem "th" [Node.text "A"], Node.elem "th" [Node.text "B"]],
           Node.elem "tr" [Node.elem "td" [Node.text "1"], Node.elem "td" [Node.text "2"]]]
          :: []))
        = a ++ ("\n" ++ jsJoin "\n" (tableLines (Node.elem "table"
          [Node.elem "tr" [Node.elem "th" [Node.text "A"], Node.elem "th" [Node.text "B"]],
           Node.elem "tr" [Node.elem "td" [Node.text "1"], Node.elem "td" [Node.text "2"]]]))
          ++ "\n") ++ b) := by
  constructor
  · exact (strategies_shared_contract.1 false [] [] [] [] "Term" (by decide)).1
  · exact (strategies_shared_contract.2 true [] []
      [Node.elem "tr" [Node.elem "th" [Node.text "A"], Node.elem "th" [Node.text "B"]],
       Node.elem "tr" [Node.elem "td" [Node.text "1"], Node.elem "td" [Node.text "2"]]]
      (Node.elem "tr" [Node.elem "th" [Node.text "A"], Node.elem "th" [Node.text "B"]])
      [Node.elem "tr" [Node.elem "td" [Node.text "1"], Node.elem "td" [Node.text "2"]]]
      (by decide) rfl).1

end FetchTS

